import Mathlib

/-
Shallow embedding of scripts/validate-docs.py: a line-oriented validator for
XML documentation comments in C# source files.  Pure functions of the script
(extract_xml_doc_blocks, check_for_placeholders, validate_file and the loop of
main over files) are translated into executable Lean definitions; the regular
expressions of the script are translated into hand-written recognizers with
the same (existential, backtracking) match semantics, specialised to the
concrete patterns that appear in the script.  Character classes are the ASCII
portions of Python's str.strip / \s / \w / lower (the repository's inputs are
ASCII source text).
-/

namespace ValidateDocs

/-- Python whitespace (ASCII): the characters stripped by str.strip and
matched by the regex class \s. -/
def isPySpace (c : Char) : Bool :=
  c = ' ' || c = '\t' || c = '\n' || c = '\r' || c = '\x0b' || c = '\x0c'

/-- Python regex word class \w (ASCII portion): alphanumerics and underscore. -/
def isWordChar (c : Char) : Bool :=
  c.isAlphanum || c = '_'

/-- Drop leading Python whitespace (the effect of a leading greedy \s*). -/
def dropWs (s : List Char) : List Char := s.dropWhile isPySpace

/-- Python str.strip(): remove leading and trailing whitespace. -/
def pyStrip (s : List Char) : List Char :=
  ((s.dropWhile isPySpace).reverse.dropWhile isPySpace).reverse

/-- Python substring test `pat in s`. -/
def containsSub (pat : List Char) : List Char → Bool
  | [] => pat.isEmpty
  | c :: rest => pat.isPrefixOf (c :: rest) || containsSub pat rest

/-- Does some suffix of the string satisfy p?  (Used to model an unanchored
re.search: the pattern may begin at any position.) -/
def existsSuffix (p : List Char → Bool) : List Char → Bool
  | [] => p []
  | c :: rest => p (c :: rest) || existsSuffix p rest

/-- Match a literal word at the front of the string, returning the remainder. -/
def litP (w : List Char) (s : List Char) : Option (List Char) :=
  if w.isPrefixOf s then some (s.drop w.length) else none

/-- Match \s+ (at least one whitespace character, maximal munch; complete
whenever the following token cannot begin with whitespace). -/
def wsPlusP (s : List Char) : Option (List Char) :=
  match s with
  | c :: r => if isPySpace c then some (dropWs r) else none
  | [] => none

/-- Match \w+ (at least one word character, maximal munch; complete whenever
the following token cannot begin with a word character). -/
def wordPlusP (s : List Char) : Option (List Char) :=
  match s with
  | c :: r => if isWordChar c then some (r.dropWhile isWordChar) else none
  | [] => none

/-- Run a test on the remainder of a partial match, if the partial match
succeeded. -/
def optTest (o : Option (List Char)) (p : List Char → Bool) : Bool :=
  match o with
  | some r => p r
  | none => false

/-- Is the first character of the string equal to c? -/
def headIs (c : Char) (s : List Char) : Bool :=
  match s with
  | d :: _ => d = c
  | [] => false

/-- Python str.split('\n'). -/
def splitLines : List Char → List (List Char)
  | [] => [[]]
  | c :: r =>
    if c = '\n' then [] :: splitLines r
    else
      match splitLines r with
      | [] => [[c]]
      | h :: t => (c :: h) :: t

/-- The dataclass XmlDocBlock of the script (member_type and member_name are
never assigned by the script and are omitted). -/
structure XmlDocBlock where
  start_line : Nat
  end_line : Nat
  has_summary : Bool := false
  has_example : Bool := false
  has_code_csharp : Bool := false
  code_content : List Char := []
  member_line : Nat := 0
deriving Repr, DecidableEq

/-- The dataclass DocIssue of the script. -/
structure DocIssue where
  file : String
  line : Nat
  issue_type : String
  message : String
deriving Repr, DecidableEq

/-- The doc-comment marker '///' . -/
def docMarker : List Char := ['/', '/', '/']

def summaryOpenM : List Char := ("<summary>").toList
def summaryCloseM : List Char := ("</summary>").toList
def exampleOpenM : List Char := ("<example>").toList
def codeOpenM : List Char := ("<code lang=\"csharp\">").toList
def codeCloseM : List Char := ("</code>").toList

/-- Remainders after the visibility alternation
(public|internal|protected|protected\s+internal): every way the alternation
can match a prefix of the string. -/
def visRems (s : List Char) : List (List Char) :=
  (match litP (("public").toList) s with
   | some r => [r]
   | none => []) ++
  (match litP (("internal").toList) s with
   | some r => [r]
   | none => []) ++
  (match litP (("protected").toList) s with
   | some r =>
     [r] ++
     (match wsPlusP r with
      | some r2 =>
        (match litP (("internal").toList) r2 with
         | some r3 => [r3]
         | none => [])
      | none => [])
   | none => [])

/-- The tail \s+\w+\s*\( of the method pattern. -/
def tailWsWordParen (s : List Char) : Bool :=
  optTest (wsPlusP s) fun r =>
    optTest (wordPlusP r) fun r2 => headIs '(' (dropWs r2)

/-- \w+\s*\x7b . -/
def wordBrace (s : List Char) : Bool :=
  optTest (wordPlusP s) fun r => headIs '\x7b' (dropWs r)

/-- \w+\s+\w+\s*\x7b . -/
def word2Brace (s : List Char) : Bool :=
  optTest (wordPlusP s) fun r => optTest (wsPlusP r) fun r2 => wordBrace r2

/-- operator (as a literal, no word boundary required after). -/
def opLit (s : List Char) : Bool :=
  (litP (("operator").toList) s).isSome

/-- implicit\s+operator . -/
def implOp (s : List Char) : Bool :=
  optTest ((litP (("implicit").toList) s).bind wsPlusP) opLit

/-- explicit\s+operator . -/
def explOp (s : List Char) : Bool :=
  optTest ((litP (("explicit").toList) s).bind wsPlusP) opLit

/-- (?:readonly\s+)? followed by \w+\s+\w+\s*\x7b . -/
def afterReadonly (s : List Char) : Bool :=
  optTest ((litP (("readonly").toList) s).bind wsPlusP) word2Brace || word2Brace s

/-- (?:class|struct|interface|enum)\s+\w+ . -/
def kwWord (s : List Char) : Bool :=
  [("class").toList, ("struct").toList, ("interface").toList, ("enum").toList].any
    fun k => optTest ((litP k s).bind wsPlusP) fun r => (wordPlusP r).isSome

/-- (?:\w+\s+)?operator . -/
def maybeWordOp (s : List Char) : Bool :=
  optTest ((wordPlusP s).bind wsPlusP) opLit || opLit s

/-- Pattern 1: ^\s*(VIS)\s+.*\s+(\w+)\s*\(  (method declarations). -/
def matchP1 (line : List Char) : Bool :=
  (visRems (dropWs line)).any fun r =>
    match r with
    | c :: rest => isPySpace c && existsSuffix tailWsWordParen rest
    | [] => false

/-- Pattern 2: ^\s*(VIS)\s+(?:static\s+)?(\w+)\s*\x7b . -/
def matchP2 (line : List Char) : Bool :=
  (visRems (dropWs line)).any fun r =>
    optTest (wsPlusP r) fun r2 =>
      optTest ((litP (("static").toList) r2).bind wsPlusP) wordBrace || wordBrace r2

/-- Pattern 3: ^\s*(VIS)\s+(?:static\s+)?(?:readonly\s+)?(\w+)\s+(\w+)\s*\x7b . -/
def matchP3 (line : List Char) : Bool :=
  (visRems (dropWs line)).any fun r =>
    optTest (wsPlusP r) fun r2 =>
      optTest ((litP (("static").toList) r2).bind wsPlusP) afterReadonly || afterReadonly r2

/-- Pattern 4: ^\s*(VIS)\s+(?:static\s+)?(?:class|struct|interface|enum)\s+(\w+) . -/
def matchP4 (line : List Char) : Bool :=
  (visRems (dropWs line)).any fun r =>
    optTest (wsPlusP r) fun r2 =>
      optTest ((litP (("static").toList) r2).bind wsPlusP) kwWord || kwWord r2

/-- Pattern 5: ^\s*(VIS)\s+implicit\s+operator . -/
def matchP5 (line : List Char) : Bool :=
  (visRems (dropWs line)).any fun r => optTest (wsPlusP r) implOp

/-- Pattern 6: ^\s*(VIS)\s+explicit\s+operator . -/
def matchP6 (line : List Char) : Bool :=
  (visRems (dropWs line)).any fun r => optTest (wsPlusP r) explOp

/-- Pattern 7: ^\s*(VIS)\s+static\s+implicit\s+operator . -/
def matchP7 (line : List Char) : Bool :=
  (visRems (dropWs line)).any fun r =>
    optTest (wsPlusP r) fun r2 =>
      optTest ((litP (("static").toList) r2).bind wsPlusP) implOp

/-- Pattern 8: ^\s*(VIS)\s+static\s+explicit\s+operator . -/
def matchP8 (line : List Char) : Bool :=
  (visRems (dropWs line)).any fun r =>
    optTest (wsPlusP r) fun r2 =>
      optTest ((litP (("static").toList) r2).bind wsPlusP) explOp

/-- Pattern 9: ^\s*(VIS)\s+static\s+\w+\s+operator . -/
def matchP9 (line : List Char) : Bool :=
  (visRems (dropWs line)).any fun r =>
    optTest (wsPlusP r) fun r2 =>
      optTest ((litP (("static").toList) r2).bind wsPlusP) fun r3 =>
        optTest ((wordPlusP r3).bind wsPlusP) opLit

/-- Pattern 10: ^\s*(VIS)\s+\w+\s+operator . -/
def matchP10 (line : List Char) : Bool :=
  (visRems (dropWs line)).any fun r =>
    optTest (wsPlusP r) fun r2 =>
      optTest ((wordPlusP r2).bind wsPlusP) opLit

/-- Pattern 11: ^\s*(VIS)\s+(?:static\s+)?(?:\w+\s+)?operator . -/
def matchP11 (line : List Char) : Bool :=
  (visRems (dropWs line)).any fun r =>
    optTest (wsPlusP r) fun r2 =>
      optTest ((litP (("static").toList) r2).bind wsPlusP) maybeWordOp || maybeWordOp r2

/-- Does the line match one of the eleven member-declaration patterns of
extract_xml_doc_blocks?  (The script breaks at the first matching pattern;
only whether some pattern matches is observable, since every pattern leads to
the same action.) -/
def matchesDecl (line : List Char) : Bool :=
  matchP1 line || matchP2 line || matchP3 line || matchP4 line || matchP5 line ||
  matchP6 line || matchP7 line || matchP8 line || matchP9 line || matchP10 line ||
  matchP11 line

/-- The capture group of re.match(r'^\s*///\s*(.*)$', line): everything after
the marker with the (greedy) whitespace run following it removed. -/
def docLineContent (line : List Char) : List Char :=
  ((line.dropWhile isPySpace).drop 3).dropWhile isPySpace

/-- re.match(r'^\s*///\s*(.*)$', line), as an Option: some capture when the
line is a doc-comment line, none otherwise. -/
def docContentMatch (line : List Char) : Option (List Char) :=
  if docMarker.isPrefixOf (line.dropWhile isPySpace) then some (docLineContent line)
  else none

/-- `if '<summary>' in stripped or (current_block.has_summary and
'</summary>' not in stripped): current_block.has_summary = True`. -/
def stepSummary (stripped : List Char) (b : XmlDocBlock) : XmlDocBlock :=
  if containsSub summaryOpenM stripped ||
      (b.has_summary && ! containsSub summaryCloseM stripped) then
    { b with has_summary := true }
  else b

/-- `if '<example>' in stripped: current_block.has_example = True`. -/
def stepExample (stripped : List Char) (b : XmlDocBlock) : XmlDocBlock :=
  if containsSub exampleOpenM stripped then { b with has_example := true } else b

/-- `if '<code lang="csharp">' in stripped: current_block.has_code_csharp = True`. -/
def stepCodeFlag (stripped : List Char) (b : XmlDocBlock) : XmlDocBlock :=
  if containsSub codeOpenM stripped then { b with has_code_csharp := true } else b

/-- The code-open marker also sets `in_code = True`. -/
def icAfterOpen (stripped : List Char) (ic : Bool) : Bool :=
  if containsSub codeOpenM stripped then true else ic

/-- The code-open marker also resets `code_content = []`. -/
def ccAfterOpen (stripped : List Char) (cc : List (List Char)) : List (List Char) :=
  if containsSub codeOpenM stripped then [] else cc

/-- `if '</code>' in stripped: current_block.code_content = '\n'.join(code_content)`. -/
def stepClose (stripped : List Char) (b : XmlDocBlock) (cc : List (List Char)) :
    XmlDocBlock :=
  if containsSub codeCloseM stripped then
    { b with code_content := List.intercalate ['\n'] cc }
  else b

/-- The code-close marker also sets `in_code = False`. -/
def icAfterClose (stripped : List Char) (ic : Bool) : Bool :=
  if containsSub codeCloseM stripped then false else ic

/-- `if in_code: ... code_content.append(content_match.group(1))`, run after
the open/close marker checks of the same line. -/
def ccAfterCapture (line : List Char) (ic : Bool) (cc : List (List Char)) :
    List (List Char) :=
  if ic then
    match docContentMatch line with
    | some t => cc ++ [t]
    | none => cc
  else cc

/-- All flag updates a doc-comment line applies to the current block, in the
order of the script: summary, example, code-open, code-close. -/
def flagUpdate (stripped : List Char) (b : XmlDocBlock) (cc : List (List Char)) :
    XmlDocBlock :=
  stepClose stripped (stepCodeFlag stripped (stepExample stripped (stepSummary stripped b)))
    (ccAfterOpen stripped cc)

/-- The mutable locals of extract_xml_doc_blocks. -/
structure ExtractState where
  blocks : List XmlDocBlock
  current : Option XmlDocBlock
  in_code : Bool
  code_content : List (List Char)
deriving Repr, DecidableEq

def initState : ExtractState := ⟨[], none, false, []⟩

/-- The branch of the loop body taken when `stripped.startswith('///')`. -/
def docStep (st : ExtractState) (i : Nat) (line stripped : List Char) : ExtractState :=
  let b0 : XmlDocBlock :=
    match st.current with
    | none => { start_line := i, end_line := i }
    | some b => { b with end_line := i }
  { blocks := st.blocks
    current := some (flagUpdate stripped b0 st.code_content)
    in_code := icAfterClose stripped (icAfterOpen stripped st.in_code)
    code_content :=
      ccAfterCapture line (icAfterClose stripped (icAfterOpen stripped st.in_code))
        (ccAfterOpen stripped st.code_content) }

/-- One iteration of the loop of extract_xml_doc_blocks over line i. -/
def processLine (st : ExtractState) (i : Nat) (line : List Char) : ExtractState :=
  let stripped := pyStrip line
  if docMarker.isPrefixOf stripped then
    docStep st i line stripped
  else
    match st.current with
    | some b =>
      if matchesDecl line then
        { blocks := st.blocks ++ [{ b with member_line := i }], current := none,
          in_code := false, code_content := [] }
      else
        { blocks := st.blocks, current := none, in_code := false, code_content := [] }
    | none => { blocks := st.blocks, current := none, in_code := false, code_content := [] }

/-- The loop `for i, line in enumerate(lines, start=1)`. -/
def runLines : ExtractState → Nat → List (List Char) → ExtractState
  | st, _, [] => st
  | st, i, l :: rest => runLines (processLine st i l) (i + 1) rest

/-- extract_xml_doc_blocks: split the content on newlines, run the loop from
line 1 on the initial state, and return the accumulated blocks (a run still
open at end of file is dropped with the final state). -/
def extract_xml_doc_blocks (content : String) : List XmlDocBlock :=
  (runLines initState 1 (splitLines content.toList)).blocks

/-- The five entries of PLACEHOLDER_PATTERNS, as an enumeration (the script
stores them as regex source strings; patternText below recovers those). -/
inductive PlaceholderPattern
  | invokeTheMemberHere
  | invokeMemberHere
  | todo
  | placeholderWord
  | manyDots
deriving Repr, DecidableEq

def PLACEHOLDER_PATTERNS : List PlaceholderPattern :=
  [.invokeTheMemberHere, .invokeMemberHere, .todo, .placeholderWord, .manyDots]

/-- The regex source text of each placeholder pattern, as it appears in the
script (and in the emitted warning messages). -/
def patternText : PlaceholderPattern → String
  | .invokeTheMemberHere => "invoke\\s+the\\s+member\\s+here"
  | .invokeMemberHere => "invoke\\s+member\\s+here"
  | .todo => "TODO"
  | .placeholderWord => "placeholder"
  | .manyDots => "\\.\\.\\.\\.\\.\\."

/-- re.search(pattern, code_content, re.IGNORECASE) for each placeholder
pattern: case-insensitivity is modelled by lowering the subject (ASCII), the
literal words of the patterns already being lower case. -/
def patternHit (p : PlaceholderPattern) (s : List Char) : Bool :=
  let t := s.map Char.toLower
  match p with
  | .invokeTheMemberHere =>
    existsSuffix
      (fun r =>
        optTest ((litP (("invoke").toList) r).bind wsPlusP) fun r2 =>
          optTest ((litP (("the").toList) r2).bind wsPlusP) fun r3 =>
            optTest ((litP (("member").toList) r3).bind wsPlusP) fun r4 =>
              (litP (("here").toList) r4).isSome)
      t
  | .invokeMemberHere =>
    existsSuffix
      (fun r =>
        optTest ((litP (("invoke").toList) r).bind wsPlusP) fun r2 =>
          optTest ((litP (("member").toList) r2).bind wsPlusP) fun r3 =>
            (litP (("here").toList) r3).isSome)
      t
  | .todo => containsSub (("todo").toList) t
  | .placeholderWord => containsSub (("placeholder").toList) t
  | .manyDots => containsSub (List.replicate 6 '.') t

/-- check_for_placeholders: the patterns whose search succeeds, in the order
of PLACEHOLDER_PATTERNS. -/
def check_for_placeholders (code : List Char) : List PlaceholderPattern :=
  PLACEHOLDER_PATTERNS.filter fun p => patternHit p code

def missingSummaryMsg : String := "Non-private member missing <summary>"

def missingExampleMsg : String :=
  "Non-private member missing <example> with <code lang=\"csharp\">"

def placeholderMsg (p : PlaceholderPattern) : String :=
  "Code example contains placeholder pattern: " ++ patternText p

/-- The body of the `for block in blocks` loop of validate_file: the issues
contributed by one block (the `continue` statements make the three rules
mutually exclusive). -/
def blockIssues (file : String) (b : XmlDocBlock) : List DocIssue :=
  if ! b.has_summary then
    [{ file := file, line := b.start_line, issue_type := "error",
       message := missingSummaryMsg }]
  else if ! b.has_example || ! b.has_code_csharp then
    [{ file := file, line := b.start_line, issue_type := "error",
       message := missingExampleMsg }]
  else
    (check_for_placeholders b.code_content).map fun p =>
      { file := file, line := b.start_line, issue_type := "warning",
        message := placeholderMsg p }

/-- The whole `for block in blocks` loop, accumulating issues in order. -/
def issuesAll (file : String) : List XmlDocBlock → List DocIssue
  | [] => []
  | b :: rest => blockIssues file b ++ issuesAll file rest

/-- validate_file: the file's content arrives as an Except, error carrying the
text of the exception raised by read_text. -/
def validate_file (file : String) (content : Except String String) : List DocIssue :=
  match content with
  | .error e =>
    [{ file := file, line := 0, issue_type := "error",
       message := "Could not read file: " ++ e }]
  | .ok c => issuesAll file (extract_xml_doc_blocks c)

/-- The per-file loop of main, restricted to diagnostic collection: each file
is validated independently and the issue lists are concatenated in order. -/
def validate_files : List (String × Except String String) → List DocIssue
  | [] => []
  | (f, c) :: rest => validate_file f c ++ validate_files rest

/-! ### Helper lemmas -/

theorem flagUpdate_start_line (s : List Char) (b : XmlDocBlock) (cc : List (List Char)) :
    (flagUpdate s b cc).start_line = b.start_line := by
  simp only [flagUpdate, stepClose, stepCodeFlag, stepExample, stepSummary]
  split_ifs <;> rfl

theorem flagUpdate_end_line (s : List Char) (b : XmlDocBlock) (cc : List (List Char)) :
    (flagUpdate s b cc).end_line = b.end_line := by
  simp only [flagUpdate, stepClose, stepCodeFlag, stepExample, stepSummary]
  split_ifs <;> rfl

theorem flagUpdate_member_line (s : List Char) (b : XmlDocBlock) (cc : List (List Char)) :
    (flagUpdate s b cc).member_line = b.member_line := by
  simp only [flagUpdate, stepClose, stepCodeFlag, stepExample, stepSummary]
  split_ifs <;> rfl

theorem flagUpdate_summary_sticky (s : List Char) (b : XmlDocBlock) (cc : List (List Char))
    (h : b.has_summary = true) : (flagUpdate s b cc).has_summary = true := by
  simp only [flagUpdate, stepClose, stepCodeFlag, stepExample, stepSummary]
  split_ifs <;> simp_all

theorem flagUpdate_code_flag_sticky (s : List Char) (b : XmlDocBlock) (cc : List (List Char))
    (h : b.has_code_csharp = true) : (flagUpdate s b cc).has_code_csharp = true := by
  simp only [flagUpdate, stepClose, stepCodeFlag, stepExample, stepSummary]
  split_ifs <;> simp_all

theorem flagUpdate_example_sticky (s : List Char) (b : XmlDocBlock) (cc : List (List Char))
    (h : b.has_example = true) : (flagUpdate s b cc).has_example = true := by
  simp only [flagUpdate, stepClose, stepCodeFlag, stepExample, stepSummary]
  split_ifs <;> simp_all

theorem flagUpdate_code_flag_of_open (s : List Char) (b : XmlDocBlock) (cc : List (List Char))
    (h : containsSub codeOpenM s = true) : (flagUpdate s b cc).has_code_csharp = true := by
  simp only [flagUpdate, stepClose, stepCodeFlag, stepExample, stepSummary]
  split_ifs <;> simp_all

theorem flagUpdate_code_content_of_not_close (s : List Char) (b : XmlDocBlock)
    (cc : List (List Char)) (h : containsSub codeCloseM s = false) :
    (flagUpdate s b cc).code_content = b.code_content := by
  simp only [flagUpdate, stepClose, stepCodeFlag, stepExample, stepSummary]
  split_ifs <;> simp_all

theorem flagUpdate_code_content_of_close (s : List Char) (b : XmlDocBlock)
    (cc : List (List Char)) (h : containsSub codeCloseM s = true) :
    (flagUpdate s b cc).code_content = List.intercalate ['\n'] (ccAfterOpen s cc) := by
  simp only [flagUpdate, stepClose, stepCodeFlag, stepExample, stepSummary]
  split_ifs <;> simp_all

theorem dropWhile_head_not {α : Type} (p : α → Bool) :
    ∀ (l : List α) (c : α) (r : List α), l.dropWhile p = c :: r → p c = false := by
  intro l
  induction l with
  | nil => intro c r h; exact absurd h (by simp)
  | cons a t ih =>
    intro c r h
    rw [List.dropWhile_cons] at h
    by_cases hpa : p a = true
    · rw [if_pos hpa] at h
      exact ih c r h
    · rw [if_neg hpa] at h
      injection h with h1 h2
      subst h1
      simpa using hpa

theorem dropWs_eq_nil_of_pyStrip (line : List Char) (h : pyStrip line = []) :
    dropWs line = [] := by
  unfold pyStrip at h
  have h1 : (line.dropWhile isPySpace).reverse.dropWhile isPySpace = [] := by
    rwa [List.reverse_eq_nil_iff] at h
  have h2 : ∀ x ∈ (line.dropWhile isPySpace).reverse, isPySpace x = true := by
    rw [List.dropWhile_eq_nil_iff] at h1
    exact h1
  cases hA : line.dropWhile isPySpace with
  | nil => exact hA
  | cons c r =>
    have hc : isPySpace c = false := dropWhile_head_not isPySpace line c r hA
    have hmem : c ∈ (line.dropWhile isPySpace).reverse := by
      rw [hA, List.mem_reverse]
      exact List.mem_cons_self c r
    rw [h2 c hmem] at hc
    exact absurd hc (by simp)

theorem matchesDecl_of_pyStrip_nil (line : List Char) (h : pyStrip line = []) :
    matchesDecl line = false := by
  have hv : visRems (dropWs line) = [] := by
    rw [dropWs_eq_nil_of_pyStrip line h]
    decide
  simp [matchesDecl, matchP1, matchP2, matchP3, matchP4, matchP5, matchP6, matchP7,
    matchP8, matchP9, matchP10, matchP11, hv]

theorem processLine_doc (st : ExtractState) (i : Nat) (line : List Char)
    (hd : docMarker.isPrefixOf (pyStrip line) = true) :
    processLine st i line = docStep st i line (pyStrip line) := by
  simp only [processLine, hd]
  rfl

theorem processLine_not_doc (st : ExtractState) (i : Nat) (line : List Char)
    (hd : docMarker.isPrefixOf (pyStrip line) = false)
    (hm : matchesDecl line = false) :
    processLine st i line =
      { blocks := st.blocks, current := none, in_code := false, code_content := [] } := by
  simp only [processLine, hd]
  cases st.current with
  | none => rfl
  | some b =>
    simp only [hm]
    rfl

theorem docStep_current (st : ExtractState) (i : Nat) (line : List Char)
    (b : XmlDocBlock) (hcur : st.current = some b) :
    (docStep st i line (pyStrip line)).current =
      some (flagUpdate (pyStrip line) { b with end_line := i } st.code_content) := by
  simp only [docStep, hcur]

theorem docStep_current_none (st : ExtractState) (i : Nat) (line : List Char)
    (hcur : st.current = none) :
    (docStep st i line (pyStrip line)).current =
      some (flagUpdate (pyStrip line) { start_line := i, end_line := i } st.code_content) := by
  simp only [docStep, hcur]

theorem docStep_blocks (st : ExtractState) (i : Nat) (line s : List Char) :
    (docStep st i line s).blocks = st.blocks := rfl

theorem docStep_in_code (st : ExtractState) (i : Nat) (line s : List Char) :
    (docStep st i line s).in_code = icAfterClose s (icAfterOpen s st.in_code) := rfl

theorem docStep_code_content (st : ExtractState) (i : Nat) (line s : List Char) :
    (docStep st i line s).code_content =
      ccAfterCapture line (icAfterClose s (icAfterOpen s st.in_code))
        (ccAfterOpen s st.code_content) := rfl

theorem icAfterOpen_true (s : List Char) (ic : Bool)
    (h : containsSub codeOpenM s = true) : icAfterOpen s ic = true := by
  simp [icAfterOpen, h]

theorem icAfterOpen_false (s : List Char) (ic : Bool)
    (h : containsSub codeOpenM s = false) : icAfterOpen s ic = ic := by
  simp [icAfterOpen, h]

theorem icAfterClose_true (s : List Char) (ic : Bool)
    (h : containsSub codeCloseM s = true) : icAfterClose s ic = false := by
  simp [icAfterClose, h]

theorem icAfterClose_false (s : List Char) (ic : Bool)
    (h : containsSub codeCloseM s = false) : icAfterClose s ic = ic := by
  simp [icAfterClose, h]

theorem ccAfterOpen_true (s : List Char) (cc : List (List Char))
    (h : containsSub codeOpenM s = true) : ccAfterOpen s cc = [] := by
  simp [ccAfterOpen, h]

theorem ccAfterOpen_false (s : List Char) (cc : List (List Char))
    (h : containsSub codeOpenM s = false) : ccAfterOpen s cc = cc := by
  simp [ccAfterOpen, h]

theorem ccAfterCapture_some (line : List Char) (cc : List (List Char)) (t : List Char)
    (h : docContentMatch line = some t) : ccAfterCapture line true cc = cc ++ [t] := by
  simp [ccAfterCapture, h]

theorem ccAfterCapture_false (line : List Char) (cc : List (List Char)) :
    ccAfterCapture line false cc = cc := by
  simp [ccAfterCapture]

theorem processLine_none (st : ExtractState) (i : Nat) (line : List Char)
    (hd : docMarker.isPrefixOf (pyStrip line) = false)
    (hcur : st.current = none) :
    processLine st i line =
      { blocks := st.blocks, current := none, in_code := false, code_content := [] } := by
  simp only [processLine, hd, hcur]
  rfl

theorem processLine_decl (st : ExtractState) (i : Nat) (line : List Char)
    (b : XmlDocBlock)
    (hd : docMarker.isPrefixOf (pyStrip line) = false)
    (hcur : st.current = some b)
    (hm : matchesDecl line = true) :
    processLine st i line =
      { blocks := st.blocks ++ [{ b with member_line := i }], current := none,
        in_code := false, code_content := [] } := by
  simp only [processLine, hd, hcur, hm]
  rfl

theorem processLine_blocks_le (st : ExtractState) (i : Nat) (line : List Char) :
    (processLine st i line).blocks.length ≤
      st.blocks.length + (if matchesDecl line = true then 1 else 0) := by
  by_cases hd : docMarker.isPrefixOf (pyStrip line) = true
  · rw [processLine_doc st i line hd, docStep_blocks]
    exact Nat.le_add_right _ _
  · have hd2 : docMarker.isPrefixOf (pyStrip line) = false := by
      cases h : docMarker.isPrefixOf (pyStrip line) with
      | false => rfl
      | true => exact absurd h hd
    cases hcur : st.current with
    | none =>
      rw [processLine_none st i line hd2 hcur]
      exact Nat.le_add_right _ _
    | some b =>
      by_cases hm : matchesDecl line = true
      · rw [processLine_decl st i line b hd2 hcur hm, if_pos hm]
        simp
      · have hm2 : matchesDecl line = false := by
          cases h : matchesDecl line with
          | false => rfl
          | true => exact absurd h hm
        rw [processLine_not_doc st i line hd2 hm2, if_neg hm]
        exact Nat.le_add_right _ _

theorem runLines_length_le (lines : List (List Char)) :
    ∀ (st : ExtractState) (i : Nat),
      (runLines st i lines).blocks.length ≤
        st.blocks.length + lines.countP matchesDecl := by
  induction lines with
  | nil => intro st i; simp [runLines]
  | cons l rest ih =>
    intro st i
    have h1 := ih (processLine st i l) (i + 1)
    have h2 := processLine_blocks_le st i l
    have h3 : runLines st i (l :: rest) = runLines (processLine st i l) (i + 1) rest := rfl
    rw [h3, List.countP_cons]
    by_cases hm : matchesDecl l = true
    · rw [if_pos hm] at h2
      rw [if_pos hm]
      omega
    · rw [if_neg hm] at h2
      rw [if_neg hm]
      omega

theorem pyStrip_prefix_dropWs (l : List Char) : pyStrip l <+: dropWs l := by
  unfold pyStrip dropWs
  obtain ⟨t, ht⟩ :=
    List.dropWhile_suffix (l := (l.dropWhile isPySpace).reverse) (p := isPySpace)
  refine ⟨t.reverse, ?_⟩
  have hr : (t ++ (l.dropWhile isPySpace).reverse.dropWhile isPySpace).reverse =
      ((l.dropWhile isPySpace).reverse.dropWhile isPySpace).reverse ++ t.reverse := by
    rw [List.reverse_append]
  rw [ht] at hr
  rw [List.reverse_reverse] at hr
  exact hr.symm

theorem marker_prefix_dropWs (line : List Char)
    (h : docMarker.isPrefixOf (pyStrip line) = true) :
    docMarker.isPrefixOf (line.dropWhile isPySpace) = true := by
  rw [List.isPrefixOf_iff_prefix] at h ⊢
  exact h.trans (pyStrip_prefix_dropWs line)

theorem docContentMatch_of_marker (line : List Char)
    (h : docMarker.isPrefixOf (pyStrip line) = true) :
    docContentMatch line = some (docLineContent line) := by
  unfold docContentMatch
  rw [marker_prefix_dropWs line h]
  simp

/-! ### C1 -/

/-- C1: the Policy Checker applies the three rules first-failure-wins to every
finalized block.  A block without a summary yields exactly one error at the
block's start line and nothing else; a block with a summary but without the
example flag or the tagged-code flag yields exactly one error at the start
line and no placeholder warnings; a block passing both yields no errors and
exactly one warning per placeholder pattern matching its captured code text,
each warning naming the matching pattern, all at the block's start line. -/
theorem policy_first_failure_wins (file : String) (b : XmlDocBlock) :
    (b.has_summary = false →
      blockIssues file b =
        [{ file := file, line := b.start_line, issue_type := "error",
           message := missingSummaryMsg }]) ∧
    (b.has_summary = true → (b.has_example = false ∨ b.has_code_csharp = false) →
      blockIssues file b =
        [{ file := file, line := b.start_line, issue_type := "error",
           message := missingExampleMsg }]) ∧
    (b.has_summary = true → b.has_example = true → b.has_code_csharp = true →
      blockIssues file b =
        (check_for_placeholders b.code_content).map
          (fun p => { file := file, line := b.start_line, issue_type := "warning",
                      message := placeholderMsg p }) ∧
      ∀ d ∈ blockIssues file b, d.issue_type = "warning" ∧ d.line = b.start_line) := by
  refine ⟨?_, ?_, ?_⟩
  · intro h
    simp [blockIssues, h]
  · intro h1 h2
    rcases h2 with h2 | h2 <;> simp [blockIssues, h1, h2]
  · intro h1 h2 h3
    have he : blockIssues file b =
        (check_for_placeholders b.code_content).map
          (fun p => { file := file, line := b.start_line, issue_type := "warning",
                      message := placeholderMsg p }) := by
      simp [blockIssues, h1, h2, h3]
    refine ⟨he, ?_⟩
    intro d hd
    rw [he] at hd
    obtain ⟨p, _, rfl⟩ := List.mem_map.mp hd
    exact ⟨rfl, rfl⟩

/-- Witness for C1: a block lacking a summary gets exactly the missing-summary
error, and a complete block whose code text contains "TODO" gets exactly the
one warning naming the TODO pattern. -/
theorem policy_first_failure_wins_witness :
    blockIssues "A.cs"
      { start_line := 3, end_line := 4, member_line := 5 } =
      [{ file := "A.cs", line := 3, issue_type := "error",
         message := missingSummaryMsg }] ∧
    blockIssues "A.cs"
      { start_line := 7, end_line := 11, has_summary := true, has_example := true,
        has_code_csharp := true, code_content := ("var x = 1; // TODO").toList,
        member_line := 12 } =
      [{ file := "A.cs", line := 7, issue_type := "warning",
         message := placeholderMsg PlaceholderPattern.todo }] := by
  constructor
  · exact (policy_first_failure_wins "A.cs"
      { start_line := 3, end_line := 4, member_line := 5 }).1 rfl
  · have h := ((policy_first_failure_wins "A.cs"
      { start_line := 7, end_line := 11, has_summary := true, has_example := true,
        has_code_csharp := true, code_content := ("var x = 1; // TODO").toList,
        member_line := 12 }).2.2 rfl rfl rfl).1
    rw [h]
    decide

/-! ### C2 -/

/-- C2 counterexample: the line `public int Count;` — a public field declared
as a typed member — matches none of the eleven declaration patterns, so a
doc-comment run immediately followed by it is discarded and no block is
finalized, contrary to the claim that the qualifying-declaration grammar
covers fields declared as typed members. -/
theorem field_declaration_not_finalized_cex :
    matchesDecl (("public int Count;").toList) = false ∧
    extract_xml_doc_blocks
        ("/// <summary>Count of items.</summary>\npublic int Count;") = [] := by
  constructor <;> decide

/-- C2 amended: a doc-comment run whose immediately following non-comment
line is a field declared as a typed member (for example `public int Count;`)
is NOT finalized into a block: in every extractor state the line discards the
open run, leaving the finalized blocks unchanged and no current run. -/
theorem field_declaration_discarded (st : ExtractState) (i : Nat) :
    processLine st i (("public int Count;").toList) =
      { blocks := st.blocks, current := none, in_code := false, code_content := [] } := by
  exact processLine_not_doc st i (("public int Count;").toList) (by decide) (by decide)

/-! ### C3 -/

/-- C3 counterexample: a run whose code block is opened on line 3, has the
single body line `///   x`, and is closed on line 5.  The claim says the
captured body is the lines strictly between the markers with the marker and
one optional space removed, i.e. "  x"; the code instead also captures the
open-marker line's own text and strips the whole whitespace run, producing
the two-line text starting with the open marker. -/
theorem code_capture_open_line_cex :
    extract_xml_doc_blocks
        ("/// <summary>s</summary>\n/// <example>\n/// <code lang=\"csharp\">\n///   x\n/// </code>\npublic void M()") =
      [{ start_line := 1, end_line := 5, has_summary := true, has_example := true,
         has_code_csharp := true,
         code_content := ("<code lang=\"csharp\">\nx").toList, member_line := 6 }] ∧
    ("<code lang=\"csharp\">\nx").toList ≠ ("  x").toList := by
  constructor <;> decide

/-- C3 amended: on a doc-comment line, (a) an open-marker line (without a
close marker) restarts the capture with that line's own stripped text as its
first element and turns capture on; (b) while capture is on, a marker-free
doc line appends its stripped text; (c) a close-marker line is itself never
captured and turns capture off.  The stripped text of a captured line is
docLineContent: everything after the leading whitespace, the marker `///` and
the whole following whitespace run (not just one space). -/
theorem code_capture_behavior (st : ExtractState) (i : Nat) (line : List Char)
    (hdoc : docMarker.isPrefixOf (pyStrip line) = true) :
    (containsSub codeOpenM (pyStrip line) = true →
      containsSub codeCloseM (pyStrip line) = false →
      (processLine st i line).code_content = [docLineContent line] ∧
      (processLine st i line).in_code = true) ∧
    (containsSub codeOpenM (pyStrip line) = false →
      containsSub codeCloseM (pyStrip line) = false →
      st.in_code = true →
      (processLine st i line).code_content = st.code_content ++ [docLineContent line]) ∧
    (containsSub codeCloseM (pyStrip line) = true →
      (processLine st i line).code_content =
        ccAfterOpen (pyStrip line) st.code_content ∧
      (processLine st i line).in_code = false) := by
  have hcm := docContentMatch_of_marker line hdoc
  refine ⟨?_, ?_, ?_⟩
  · intro hopen hclose
    rw [processLine_doc st i line hdoc]
    constructor
    · rw [docStep_code_content, icAfterOpen_true _ _ hopen,
        icAfterClose_false _ _ hclose, ccAfterOpen_true _ _ hopen,
        ccAfterCapture_some line [] _ hcm]
      rfl
    · rw [docStep_in_code, icAfterOpen_true _ _ hopen, icAfterClose_false _ _ hclose]
  · intro hopen hclose hic
    rw [processLine_doc st i line hdoc, docStep_code_content,
      icAfterOpen_false _ _ hopen, icAfterClose_false _ _ hclose, hic,
      ccAfterOpen_false _ _ hopen, ccAfterCapture_some line st.code_content _ hcm]
  · intro hclose
    rw [processLine_doc st i line hdoc]
    constructor
    · rw [docStep_code_content, icAfterClose_true _ _ hclose, ccAfterCapture_false]
    · rw [docStep_in_code, icAfterClose_true _ _ hclose]

/-- Witness for C3: processing the open-marker line `/// <code lang="csharp">`
restarts the capture with exactly that line's stripped text and turns capture
on. -/
theorem code_capture_behavior_witness :
    (processLine
        { blocks := [], current := some { start_line := 1, end_line := 1 },
          in_code := false, code_content := [] }
        2 (("/// <code lang=\"csharp\">").toList)).code_content =
      [docLineContent (("/// <code lang=\"csharp\">").toList)] ∧
    (processLine
        { blocks := [], current := some { start_line := 1, end_line := 1 },
          in_code := false, code_content := [] }
        2 (("/// <code lang=\"csharp\">").toList)).in_code = true :=
  (code_capture_behavior
      { blocks := [], current := some { start_line := 1, end_line := 1 },
        in_code := false, code_content := [] }
      2 (("/// <code lang=\"csharp\">").toList) (by decide)).1 (by decide) (by decide)

/-! ### C4 -/

/-- C4: last-one-wins for multiple code blocks in one run.  On a doc-comment
line containing the close marker, the current block's code text is overwritten
with the join of the lines captured since the most recent open marker (the
accumulator, reset to [] if an open marker is on this same line): the result
does not depend on the block's previously stored code text, so text captured
for an earlier code block of the run cannot survive into the finalized
block. -/
theorem last_code_block_wins (st : ExtractState) (i : Nat) (line : List Char)
    (b : XmlDocBlock)
    (hdoc : docMarker.isPrefixOf (pyStrip line) = true)
    (hcur : st.current = some b)
    (hclose : containsSub codeCloseM (pyStrip line) = true) :
    ∃ cb, (processLine st i line).current = some cb ∧
      cb.code_content =
        List.intercalate ['\n'] (ccAfterOpen (pyStrip line) st.code_content) := by
  refine ⟨flagUpdate (pyStrip line) { b with end_line := i } st.code_content, ?_, ?_⟩
  · rw [processLine_doc st i line hdoc]
    exact docStep_current st i line b hcur
  · exact flagUpdate_code_content_of_close _ _ _ hclose

/-- Witness for C4: a close-marker line overwrites a block's previously
captured text "OLD" with the join of the current accumulator ["NEW"], at a
state where both exist. -/
theorem last_code_block_wins_witness :
    ∃ cb,
      (processLine
          { blocks := [],
            current := some { start_line := 1, end_line := 2, has_code_csharp := true,
                              code_content := ("OLD").toList },
            in_code := true, code_content := [("NEW").toList] }
          3 (("/// </code>").toList)).current = some cb ∧
      cb.code_content =
        List.intercalate ['\n']
          (ccAfterOpen (pyStrip (("/// </code>").toList)) [("NEW").toList]) :=
  last_code_block_wins
    { blocks := [],
      current := some { start_line := 1, end_line := 2, has_code_csharp := true,
                        code_content := ("OLD").toList },
      in_code := true, code_content := [("NEW").toList] }
    3 (("/// </code>").toList)
    { start_line := 1, end_line := 2, has_code_csharp := true,
      code_content := ("OLD").toList }
    (by decide) rfl (by decide)

/-! ### C5 -/

/-- C5: the has-summary flag is sticky within a run.  If the current block of
a run has the flag set, then after processing any further doc-comment lines
(whatever their content) the run is still open and the flag is still set. -/
theorem summary_flag_sticky (lines : List (List Char))
    (hdoc : ∀ l ∈ lines, docMarker.isPrefixOf (pyStrip l) = true) :
    ∀ (st : ExtractState) (i : Nat) (b : XmlDocBlock),
      st.current = some b → b.has_summary = true →
      ∃ cb, (runLines st i lines).current = some cb ∧ cb.has_summary = true := by
  induction lines with
  | nil =>
    intro st i b hcur hsum
    exact ⟨b, hcur, hsum⟩
  | cons l rest ih =>
    intro st i b hcur hsum
    have hd : docMarker.isPrefixOf (pyStrip l) = true := hdoc l (List.mem_cons_self l rest)
    have hstep : (processLine st i l).current =
        some (flagUpdate (pyStrip l) { b with end_line := i } st.code_content) := by
      rw [processLine_doc st i l hd]
      exact docStep_current st i l b hcur
    have hsum2 :
        (flagUpdate (pyStrip l) { b with end_line := i } st.code_content).has_summary =
          true :=
      flagUpdate_summary_sticky _ _ _ hsum
    exact ih (fun x hx => hdoc x (List.mem_cons_of_mem l hx))
      (processLine st i l) (i + 1) _ hstep hsum2

/-- Witness for C5: a run whose block already has the summary flag keeps it
across two further doc lines, one of which contains the summary-close tag. -/
theorem summary_flag_sticky_witness :
    ∃ cb,
      (runLines
          { blocks := [],
            current := some { start_line := 1, end_line := 1, has_summary := true },
            in_code := false, code_content := [] }
          2 [("/// </summary>").toList, ("/// other").toList]).current = some cb ∧
      cb.has_summary = true :=
  summary_flag_sticky [("/// </summary>").toList, ("/// other").toList] (by decide)
    { blocks := [],
      current := some { start_line := 1, end_line := 1, has_summary := true },
      in_code := false, code_content := [] }
    2 { start_line := 1, end_line := 1, has_summary := true } rfl rfl

/-! ### C7 -/

/-- C7: a blank (all-whitespace) line closes and discards the current run in
every extractor state: the finalized blocks are unchanged, the current run is
dropped and capture state is reset, so a run separated from the next
qualifying declaration by a blank line contributes no block (and hence no
diagnostics for it). -/
theorem blank_line_discards_run (st : ExtractState) (i : Nat) (line : List Char)
    (h : pyStrip line = []) :
    processLine st i line =
      { blocks := st.blocks, current := none, in_code := false, code_content := [] } := by
  have hm : matchesDecl line = false := matchesDecl_of_pyStrip_nil line h
  have hd : docMarker.isPrefixOf (pyStrip line) = false := by
    rw [h]; decide
  exact processLine_not_doc st i line hd hm

/-- Witness for C7: a line of three spaces discards a fully populated open
run without touching the finalized blocks. -/
theorem blank_line_discards_run_witness :
    processLine
        { blocks := [],
          current := some { start_line := 1, end_line := 1, has_summary := true },
          in_code := true, code_content := [("x").toList] }
        2 (("   ").toList) =
      { blocks := [], current := none, in_code := false, code_content := [] } :=
  blank_line_discards_run
    { blocks := [],
      current := some { start_line := 1, end_line := 1, has_summary := true },
      in_code := true, code_content := [("x").toList] }
    2 (("   ").toList) (by decide)

/-! ### C8 -/

theorem validate_files_append (xs ys : List (String × Except String String)) :
    validate_files (xs ++ ys) = validate_files xs ++ validate_files ys := by
  induction xs with
  | nil => simp [validate_files]
  | cons fc rest ih =>
    cases fc with
    | mk f c => simp [validate_files, ih]

/-- C8: a file whose content cannot be read yields exactly one diagnostic:
severity "error", line 0, message embedding the underlying cause; and in a
run over several files, the surrounding files' diagnostics are exactly those
they would produce anyway (the failure does not stop processing). -/
theorem read_failure_single_diagnostic (f e : String)
    (pre post : List (String × Except String String)) :
    validate_file f (Except.error e) =
      [{ file := f, line := 0, issue_type := "error",
         message := "Could not read file: " ++ e }] ∧
    validate_files (pre ++ (f, Except.error e) :: post) =
      validate_files pre ++
        { file := f, line := 0, issue_type := "error",
          message := "Could not read file: " ++ e } :: validate_files post := by
  refine ⟨rfl, ?_⟩
  rw [validate_files_append]
  simp [validate_files, validate_file]

/-! ### C6 -/

/-- C6: the extractor returns at most one block per line matching the
qualifying-declaration grammar: the number of returned blocks never exceeds
the number of such lines.  (In particular a run still open at end of file,
and a run whose following non-comment line matches no declaration pattern,
contribute no block.) -/
theorem blocks_le_decl_lines (content : String) :
    (extract_xml_doc_blocks content).length ≤
      (splitLines content.toList).countP matchesDecl := by
  have h := runLines_length_le (splitLines content.toList) initState 1
  simpa [extract_xml_doc_blocks, initState] using h

/-! ### C9 -/

theorem runLines_ordered_inv (lines : List (List Char)) :
    ∀ (st : ExtractState) (i : Nat),
      (∀ b ∈ st.blocks,
        b.start_line ≤ b.end_line ∧ b.end_line < b.member_line ∧ b.member_line < i) →
      st.blocks.Pairwise (fun a b2 => a.start_line < b2.start_line) →
      (∀ b, st.current = some b →
        b.start_line ≤ b.end_line ∧ b.end_line < i ∧
        ∀ b2 ∈ st.blocks, b2.start_line < b.start_line) →
      (∀ b ∈ (runLines st i lines).blocks,
        b.start_line ≤ b.end_line ∧ b.end_line < b.member_line ∧
        b.member_line < i + lines.length) ∧
      (runLines st i lines).blocks.Pairwise (fun a b2 => a.start_line < b2.start_line) ∧
      (∀ b, (runLines st i lines).current = some b →
        b.start_line ≤ b.end_line ∧ b.end_line < i + lines.length ∧
        ∀ b2 ∈ (runLines st i lines).blocks, b2.start_line < b.start_line) := by
  induction lines with
  | nil =>
    intro st i hB hP hC
    refine ⟨?_, hP, ?_⟩
    · intro b hb
      obtain ⟨h1, h2, h3⟩ := hB b hb
      exact ⟨h1, h2, by simpa using h3⟩
    · intro b hb
      obtain ⟨h1, h2, h3⟩ := hC b hb
      exact ⟨h1, by simpa using h2, h3⟩
  | cons l rest ih =>
    intro st i hB hP hC
    have hstep :
        (∀ b ∈ (processLine st i l).blocks,
          b.start_line ≤ b.end_line ∧ b.end_line < b.member_line ∧
          b.member_line < i + 1) ∧
        (processLine st i l).blocks.Pairwise (fun a b2 => a.start_line < b2.start_line) ∧
        (∀ b, (processLine st i l).current = some b →
          b.start_line ≤ b.end_line ∧ b.end_line < i + 1 ∧
          ∀ b2 ∈ (processLine st i l).blocks, b2.start_line < b.start_line) := by
      by_cases hd : docMarker.isPrefixOf (pyStrip l) = true
      · have hpd := processLine_doc st i l hd
        have hbl : (processLine st i l).blocks = st.blocks := by
          rw [hpd, docStep_blocks]
        refine ⟨?_, ?_, ?_⟩
        · rw [hbl]
          intro b hb
          obtain ⟨h1, h2, h3⟩ := hB b hb
          exact ⟨h1, h2, Nat.lt_succ_of_lt h3⟩
        · rw [hbl]
          exact hP
        · intro b hb
          cases hcur : st.current with
          | none =>
            rw [hpd, docStep_current_none st i l hcur] at hb
            injection hb with hb
            subst hb
            refine ⟨?_, ?_, ?_⟩
            · simp only [flagUpdate_start_line, flagUpdate_end_line]
              exact Nat.le_refl i
            · rw [flagUpdate_end_line]
              exact Nat.lt_succ_self i
            · rw [hbl, flagUpdate_start_line]
              intro b2 hb2
              obtain ⟨h1, h2, h3⟩ := hB b2 hb2
              exact lt_of_le_of_lt h1 (lt_trans h2 h3)
          | some b0 =>
            rw [hpd, docStep_current st i l b0 hcur] at hb
            injection hb with hb
            subst hb
            obtain ⟨h1, h2, h3⟩ := hC b0 hcur
            refine ⟨?_, ?_, ?_⟩
            · rw [flagUpdate_start_line, flagUpdate_end_line]
              exact le_of_lt (lt_of_le_of_lt h1 h2)
            · rw [flagUpdate_end_line]
              exact Nat.lt_succ_self i
            · rw [hbl, flagUpdate_start_line]
              exact h3
      · have hd2 : docMarker.isPrefixOf (pyStrip l) = false := by
          cases h : docMarker.isPrefixOf (pyStrip l) with
          | false => rfl
          | true => exact absurd h hd
        cases hcur : st.current with
        | none =>
          rw [processLine_none st i l hd2 hcur]
          refine ⟨?_, hP, ?_⟩
          · intro b hb
            obtain ⟨h1, h2, h3⟩ := hB b hb
            exact ⟨h1, h2, Nat.lt_succ_of_lt h3⟩
          · intro b hb
            exact absurd hb (by simp)
        | some b0 =>
          by_cases hm : matchesDecl l = true
          · rw [processLine_decl st i l b0 hd2 hcur hm]
            obtain ⟨h1, h2, h3⟩ := hC b0 hcur
            refine ⟨?_, ?_, ?_⟩
            · intro b hb
              rcases List.mem_append.mp hb with h | h
              · obtain ⟨g1, g2, g3⟩ := hB b h
                exact ⟨g1, g2, Nat.lt_succ_of_lt g3⟩
              · have hbe : b = { b0 with member_line := i } := by simpa using h
                subst hbe
                exact ⟨h1, h2, Nat.lt_succ_self i⟩
            · rw [List.pairwise_append]
              refine ⟨hP, by simp, ?_⟩
              intro a ha b hb
              have hbe : b = { b0 with member_line := i } := by simpa using hb
              subst hbe
              exact h3 a ha
            · intro b hb
              exact absurd hb (by simp)
          · have hm2 : matchesDecl l = false := by
              cases h : matchesDecl l with
              | false => rfl
              | true => exact absurd h hm
            rw [processLine_not_doc st i l hd2 hm2]
            refine ⟨?_, hP, ?_⟩
            · intro b hb
              obtain ⟨h1, h2, h3⟩ := hB b hb
              exact ⟨h1, h2, Nat.lt_succ_of_lt h3⟩
            · intro b hb
              exact absurd hb (by simp)
    obtain ⟨sB, sP, sC⟩ := hstep
    have hfin := ih (processLine st i l) (i + 1) sB sP sC
    have hrun : runLines st i (l :: rest) = runLines (processLine st i l) (i + 1) rest :=
      rfl
    have hlen : i + (l :: rest).length = (i + 1) + rest.length := by
      simp only [List.length_cons]
      omega
    rw [hrun, hlen]
    exact hfin

/-- C9: the extractor's output is ordered in file order: every returned block
has start line ≤ end line < declaration line, and the blocks appear in
strictly increasing order of start line. -/
theorem blocks_ordered (content : String) :
    (∀ b ∈ extract_xml_doc_blocks content,
      b.start_line ≤ b.end_line ∧ b.end_line < b.member_line) ∧
    (extract_xml_doc_blocks content).Pairwise
      (fun a b2 => a.start_line < b2.start_line) := by
  have h := runLines_ordered_inv (splitLines content.toList) initState 1
    (by intro b hb; exact absurd hb (by simp [initState]))
    (by simp [initState])
    (by intro b hb; simp [initState] at hb)
  obtain ⟨h1, h2, h3⟩ := h
  constructor
  · intro b hb
    obtain ⟨g1, g2, g3⟩ := h1 b hb
    exact ⟨g1, g2⟩
  · exact h2

/-! ### C10 -/

theorem runLines_append (xs ys : List (List Char)) :
    ∀ (st : ExtractState) (i : Nat),
      runLines st i (xs ++ ys) = runLines (runLines st i xs) (i + xs.length) ys := by
  induction xs with
  | nil => intro st i; simp [runLines]
  | cons x rest ih =>
    intro st i
    calc runLines st i ((x :: rest) ++ ys)
        = runLines (processLine st i x) (i + 1) (rest ++ ys) := rfl
      _ = runLines (runLines (processLine st i x) (i + 1) rest)
            ((i + 1) + rest.length) ys := ih _ _
      _ = runLines (runLines st i (x :: rest)) (i + (x :: rest).length) ys := by
            have h2 : (i + 1) + rest.length = i + (x :: rest).length := by
              simp only [List.length_cons]
              omega
            rw [h2]
            rfl

theorem blockIssues_empty_of (file : String) (b : XmlDocBlock)
    (hs : b.has_summary = true) (he : b.has_example = true)
    (hcode : b.has_code_csharp = true) (hcc : b.code_content = []) :
    blockIssues file b = [] := by
  have hcp : check_for_placeholders [] = [] := rfl
  simp [blockIssues, hs, he, hcode, hcc, hcp]

theorem code_run_inv (run : List (List Char)) :
    ∀ (st : ExtractState) (i : Nat) (b : XmlDocBlock),
      (∀ l ∈ run, docMarker.isPrefixOf (pyStrip l) = true) →
      (∀ l ∈ run, containsSub codeCloseM (pyStrip l) = false) →
      st.current = some b →
      ∃ cb, (runLines st i run).current = some cb ∧
        (runLines st i run).blocks = st.blocks ∧
        cb.code_content = b.code_content ∧
        (b.has_code_csharp = true → cb.has_code_csharp = true) ∧
        ((∃ l ∈ run, containsSub codeOpenM (pyStrip l) = true) →
          cb.has_code_csharp = true) := by
  induction run with
  | nil =>
    intro st i b _ _ hcur
    exact ⟨b, hcur, rfl, rfl, fun h => h, by rintro ⟨l, hl, -⟩; simp at hl⟩
  | cons l rest ih =>
    intro st i b hdoc hnoclose hcur
    have hd : docMarker.isPrefixOf (pyStrip l) = true := hdoc l (List.mem_cons_self l rest)
    have hnc : containsSub codeCloseM (pyStrip l) = false :=
      hnoclose l (List.mem_cons_self l rest)
    have hst : (processLine st i l).current =
        some (flagUpdate (pyStrip l) { b with end_line := i } st.code_content) := by
      rw [processLine_doc st i l hd]
      exact docStep_current st i l b hcur
    have hbl : (processLine st i l).blocks = st.blocks := by
      rw [processLine_doc st i l hd, docStep_blocks]
    obtain ⟨cb, hc1, hc2, hc3, hc4, hc5⟩ :=
      ih (processLine st i l) (i + 1)
        (flagUpdate (pyStrip l) { b with end_line := i } st.code_content)
        (fun x hx => hdoc x (List.mem_cons_of_mem l hx))
        (fun x hx => hnoclose x (List.mem_cons_of_mem l hx)) hst
    refine ⟨cb, hc1, hc2.trans hbl, ?_, ?_, ?_⟩
    · exact hc3.trans (flagUpdate_code_content_of_not_close _ _ _ hnc)
    · intro h
      exact hc4 (flagUpdate_code_flag_sticky _ _ _ h)
    · rintro ⟨x, hx, hopen⟩
      rcases List.mem_cons.mp hx with rfl | hx2
      · exact hc4 (flagUpdate_code_flag_of_open _ _ _ hopen)
      · exact hc5 ⟨x, hx2, hopen⟩

/-- C10: a run that opens a tagged code block but never closes it before
ending at a qualifying declaration is finalized with the tagged-code flag
true while its captured code text is the (default) empty string: the close
marker is the only place that stores the accumulator into the block.  Given
the summary and example flags, such a block passes rules 1-2 and can never
produce a placeholder warning, whatever text was written after the open
marker. -/
theorem unclosed_code_block_empty (run : List (List Char)) (declLine : List Char)
    (file : String)
    (hdoc : ∀ l ∈ run, docMarker.isPrefixOf (pyStrip l) = true)
    (hnoclose : ∀ l ∈ run, containsSub codeCloseM (pyStrip l) = false)
    (hopen : ∃ l ∈ run, containsSub codeOpenM (pyStrip l) = true)
    (hdecl : matchesDecl declLine = true)
    (hnotdoc : docMarker.isPrefixOf (pyStrip declLine) = false)
    (st : ExtractState) (i : Nat) (hst : st.current = none) :
    ∃ cb, (runLines st i (run ++ [declLine])).blocks = st.blocks ++ [cb] ∧
      cb.has_code_csharp = true ∧ cb.code_content = [] ∧
      (cb.has_summary = true → cb.has_example = true → blockIssues file cb = []) := by
  cases run with
  | nil =>
    obtain ⟨l, hl, -⟩ := hopen
    simp at hl
  | cons l0 rest =>
    have hd0 : docMarker.isPrefixOf (pyStrip l0) = true :=
      hdoc l0 (List.mem_cons_self l0 rest)
    have hnc0 : containsSub codeCloseM (pyStrip l0) = false :=
      hnoclose l0 (List.mem_cons_self l0 rest)
    have h1 : (processLine st i l0).current =
        some (flagUpdate (pyStrip l0) { start_line := i, end_line := i }
          st.code_content) := by
      rw [processLine_doc st i l0 hd0]
      exact docStep_current_none st i l0 hst
    have h1b : (processLine st i l0).blocks = st.blocks := by
      rw [processLine_doc st i l0 hd0, docStep_blocks]
    have hcc1 :
        (flagUpdate (pyStrip l0) { start_line := i, end_line := i }
          st.code_content).code_content = [] :=
      flagUpdate_code_content_of_not_close _ _ _ hnc0
    obtain ⟨cb, hc1, hc2, hc3, hc4, hc5⟩ :=
      code_run_inv rest (processLine st i l0) (i + 1)
        (flagUpdate (pyStrip l0) { start_line := i, end_line := i } st.code_content)
        (fun x hx => hdoc x (List.mem_cons_of_mem l0 hx))
        (fun x hx => hnoclose x (List.mem_cons_of_mem l0 hx)) h1
    have hcode : cb.has_code_csharp = true := by
      obtain ⟨x, hx, hox⟩ := hopen
      rcases List.mem_cons.mp hx with rfl | hx2
      · exact hc4 (flagUpdate_code_flag_of_open _ _ _ hox)
      · exact hc5 ⟨x, hx2, hox⟩
    have hccb : cb.code_content = [] := hc3.trans hcc1
    have hcurR : (runLines st i (l0 :: rest)).current = some cb := hc1
    have hblR : (runLines st i (l0 :: rest)).blocks = st.blocks := hc2.trans h1b
    have hlast : runLines st i ((l0 :: rest) ++ [declLine]) =
        processLine (runLines st i (l0 :: rest)) (i + (l0 :: rest).length) declLine := by
      rw [runLines_append (l0 :: rest) [declLine] st i]
      rfl
    have hstep2 := processLine_decl (runLines st i (l0 :: rest))
      (i + (l0 :: rest).length) declLine cb hnotdoc hcurR hdecl
    rw [hblR] at hstep2
    refine ⟨{ cb with member_line := i + (l0 :: rest).length }, ?_, hcode, hccb, ?_⟩
    · rw [hlast, hstep2]
    · intro hs he
      exact blockIssues_empty_of file _ hs he hcode hccb

/-- Witness for C10: a four-line run with summary, example and an unclosed
tagged code block whose body says TODO, finalized by a public method line,
yields a block with the tagged-code flag set, empty code text and no
diagnostics at all. -/
theorem unclosed_code_block_empty_witness :
    ∃ cb,
      (runLines initState 1
          ([("/// <summary>ok</summary>").toList, ("/// <example>").toList,
            ("/// <code lang=\"csharp\">").toList, ("/// var x = TODO;").toList] ++
            [("public void M()").toList])).blocks = initState.blocks ++ [cb] ∧
      cb.has_code_csharp = true ∧ cb.code_content = [] ∧
      (cb.has_summary = true → cb.has_example = true →
        blockIssues "W.cs" cb = []) :=
  unclosed_code_block_empty
    [("/// <summary>ok</summary>").toList, ("/// <example>").toList,
     ("/// <code lang=\"csharp\">").toList, ("/// var x = TODO;").toList]
    (("public void M()").toList) "W.cs"
    (by decide) (by decide) (by decide) (by decide) (by decide)
    initState 1 rfl

end ValidateDocs
